import Mathlib

/-!
Formal model of the AUH recipe upgrade helper orchestration engine
(`upgradehelper.py`), with theorems settling the specification's claims.

Strings are modelled as `List Char` so that the character-level operations
the source performs (`str.split`, `str.startswith`, `str.find`, `str.strip`)
are fully executable and amenable to proof.
-/

set_option autoImplicit false

abbrev Str := List Char

/-- Coerce a Lean string literal into the `List Char` representation. -/
def str (s : String) : Str := s.data

/-- Python `sep in`-style splitting: `"a,b".split(',') = ["a","b"]`,
`"".split(',') = [""]`. Mirrors `str.split(sep)` for a one-character separator. -/
def splitOnChar (sep : Char) : Str → List Str
  | [] => [[]]
  | c :: rest =>
    if c = sep then [] :: splitOnChar sep rest
    else
      match splitOnChar sep rest with
      | s :: ss => (c :: s) :: ss
      | [] => [[c]]

/-- Python `x in lst` membership test on a list of strings. -/
def memB (x : Str) (l : List Str) : Bool := l.any (fun y => y == x)

/-- Python `haystack.find(needle) != -1`: substring containment. -/
def containsSub (hay needle : Str) : Bool := hay.tails.any (fun t => needle.isPrefixOf t)

/-- Whitespace characters recognised by `str.strip()` (the ones that occur in
the tool's inputs). -/
def isSpace (c : Char) : Bool := c == ' ' || c == '\t' || c == '\n' || c == '\r'

/-- Python `str.strip()`. -/
def strip (s : Str) : Str := ((s.dropWhile isSpace).reverse.dropWhile isSpace).reverse

/-- Python `dict` lookup `d[k]` (first — and by the dict invariant only —
binding for `k`), as used on insertion-ordered dictionaries modelled as
association lists. -/
def dictLookup {α : Type} (d : List (Str × α)) (k : Str) : Option α :=
  match d.find? (fun p => p.1 == k) with
  | some p => some p.2
  | none => none

/-- Python `d[k] = v` when `k` is already a key: the binding is replaced in
place, keeping its position in insertion order. -/
def dictUpdate {α : Type} (d : List (Str × α)) (k : Str) (v : α) : List (Str × α) :=
  d.map (fun p => if p.1 == k then (k, v) else p)

/-- Python `d[k] = v`: replace in place if the key exists, otherwise append
(insertion order). -/
def dictInsert {α : Type} (d : List (Str × α)) (k : Str) (v : α) : List (Str × α) :=
  if d.any (fun p => p.1 == k) then dictUpdate d k v else d ++ [(k, v)]

/-! ## Error and context data model (`errors.py` classes as used by the core) -/

/-- The `Error(message, stdout)` exception class: a structured error carrying a
human-readable message and captured diagnostic output.  A `stdout` of `None`
is modelled as the empty string. -/
structure UHError where
  message : Str
  stdout : Str
deriving DecidableEq

/-- The exception classes that can escape an upgrade step, as distinguished by
`Updater.run`'s handler: `UpgradeNotNeededError`, `UnsupportedProtocolError`,
the structured `Error`, and any other (non-`Error`) Python exception. -/
inductive StepExc where
  | upgradeNotNeeded (message : Str)
  | unsupportedProtocol (message : Str)
  | err (e : UHError)
  | other (message : Str)
deriving DecidableEq

/-- The slice of the recipe handle (`pkg_ctx['recipe']`) the orchestrator core
reads: the commit message and the optional license-diff file name. -/
structure Recipe where
  commitMsg : Str
  licenseDiffFile : Option Str
deriving DecidableEq

/-- The per-recipe mutable context `pkg_ctx` (the fields the orchestration
logic reads and writes). -/
structure PkgCtx where
  pn : Str
  npv : Str
  maintainer : Str
  recipe : Option Recipe
  patchFile : Option Str
  error : Option StepExc
deriving DecidableEq

/-- Context as initialised by `Updater.run` for a `(pn, new_ver, maintainer)`
triple from the selected package list (lines 532-537, 560). -/
def mkCtx (p : Str × Str × Str) : PkgCtx :=
  { pn := p.1, npv := p.2.1, maintainer := p.2.2,
    recipe := none, patchFile := none, error := none }

/-- Outcomes of the two version-control operations `commit_changes` invokes:
`git.commit(msg, author)` and `git.create_patch(workdir)` (the latter returns
the captured stdout naming the patch file). -/
structure GitOps where
  commitResult : Except UHError Unit
  createPatchResult : Except UHError Str

/-! ## `Updater.commit_changes` (lines 387-422) -/

/-- The `except Error as e` handler of `commit_changes` (lines 408-419): if any
line of the captured output starts with `nothing to commit` the message becomes
`Nothing to commit!` (else the empty message); either way `pkg_ctx['error']` is
set to `Error(msg, e.stdout)`, `fail` is set, and the error is re-raised. -/
def commitErrHandler (ctx : PkgCtx) (e : UHError) : PkgCtx × Option UHError :=
  let msg :=
    if (splitOnChar '\n' e.stdout).any (fun l => (str "nothing to commit").isPrefixOf l)
    then str "Nothing to commit!" else []
  let e' : UHError := ⟨msg, e.stdout⟩
  ({ ctx with error := some (.err e') }, some e')

/-- `Updater.commit_changes(pkg_ctx)` (lines 387-422).  Returns the updated
context together with `some e` when the function raises `e` (via
`raise pkg_ctx['error']`), `none` when it returns normally. -/
def commit_changes (git : GitOps) (ctx0 : PkgCtx) : PkgCtx × Option UHError :=
  let ctx := { ctx0 with patchFile := none }
  match ctx.recipe with
  | none => (ctx, none)
  | some _ =>
    match git.commitResult with
    | .error e => commitErrHandler ctx e
    | .ok _ =>
      match git.createPatchResult with
      | .error e => commitErrHandler ctx e
      | .ok out =>
        let pf := strip out
        let ctx := { ctx with patchFile := some pf }
        if pf.isEmpty then
          let e : UHError := ⟨str "Patch file not generated.", out⟩
          ({ ctx with error := some (.err e) }, some e)
        else (ctx, none)

/-! ## The per-recipe step pipeline of `Updater.run` (lines 558-599) -/

/-- An upgrade step (an entry of `upgrade_steps`): it may mutate the context
and may raise.  The mutated context is returned even when the step raises. -/
abbrev Step := PkgCtx → PkgCtx × Option StepExc

/-- The `for step, msg in upgrade_steps` loop (lines 566-569): steps run in
order until one raises; the first exception aborts the remaining steps. -/
def runStepsLoop : List Step → PkgCtx → PkgCtx × Option StepExc
  | [], ctx => (ctx, none)
  | s :: rest, ctx =>
    match s ctx with
    | (ctx', none) => runStepsLoop rest ctx'
    | (ctx', some e) => (ctx', some e)

/-- The exception normalisation in `run`'s handler (lines 579-583): an
exception that is not an `Error` instance is wrapped into
`Error(message="Failed(unknown error)\n" + traceback)`; `Error` and the two
benign exception classes are kept as they are.  The traceback text is
modelled by the original message. -/
def classifyExc : StepExc → StepExc
  | .other m => .err ⟨str "Failed(unknown error)" ++ ('\n' :: m), []⟩
  | e => e

/-- Processing of one recipe inside `Updater.run` (lines 558-599): reset
`error`, run the steps; on success append to the succeeded list, on any
exception set `pkg_ctx['error']` and append to the failed list; then invoke
`commit_changes` unconditionally, and if it raises move the recipe from the
succeeded to the failed list.  The returned flag is `true` exactly when the
recipe ends in the succeeded list. -/
def processPkg (steps : List Step) (git : GitOps) (p : PkgCtx) : PkgCtx × Bool :=
  let ctx0 := { p with error := none }
  match runStepsLoop steps ctx0 with
  | (ctx1, none) =>
    match commit_changes git ctx1 with
    | (ctx2, none) => (ctx2, true)
    | (ctx2, some _) => (ctx2, false)
  | (ctx1, some e) =>
    let ctx2 := { ctx1 with error := some (classifyExc e) }
    (commit_changes git ctx2).1 |> fun ctx3 => (ctx3, false)

/-- The `for pn, _, _ in pkgs_to_upgrade` loop of `Updater.run`: every recipe
in the list is processed in turn; `processPkg` never propagates an exception,
so one recipe's failure cannot abort the loop. -/
def runAllLoop (steps : List Step) (git : GitOps) : List PkgCtx → List (PkgCtx × Bool)
  | [] => []
  | c :: cs => processPkg steps git c :: runAllLoop steps git cs

/-- `Updater.run(package_list)` (line 520-523 and the main loop): note that the
call to `_order_pkgs_to_upgrade` is commented out in the source, so the
contexts are built and processed directly in the raw order of
`package_list`. -/
def updaterRun (steps : List Step) (git : GitOps) (pkgs : List (Str × Str × Str)) :
    List (PkgCtx × Bool) :=
  runAllLoop steps git (pkgs.map mkCtx)

/-! ## Status text and the per-recipe email (`_get_status_msg`,
`pkg_upgrade_handler`, lines 212-216 and 288-385) -/

/-- Modelled from the spec: the `str()` rendering of the exception classes
(`errors.py` is not part of the provided source; the spec only requires the
texts to be distinct and distinct from `Succeeded`). -/
def strOfExc : StepExc → Str
  | .upgradeNotNeeded _ => str "Upgrade not needed"
  | .unsupportedProtocol _ => str "Unsupported protocol"
  | .err _ => str "Failed(other errors)"
  | .other _ => str "Failed(unknown error)"

/-- `Updater._get_status_msg(err)` (lines 212-216). -/
def getStatusMsg : Option StepExc → Str
  | none => str "Succeeded"
  | some e => strOfExc e

/-- The observable effects of `Updater.pkg_upgrade_handler` the claims are
about: whether (and with what address and subject) an email was handed to the
notification collaborator, and the address/subject written to the
`email_summary` artifact, which is produced unconditionally. -/
structure HandlerOut where
  sentTo : Option (Str × Str)
  fileTo : Str
  fileSubject : Str
deriving DecidableEq

/-- `Updater.pkg_upgrade_handler(pkg_ctx)` (lines 288-385), restricted to the
routing-relevant observables: the maintainer-override lookup (lines 325-328),
the subject construction with the ` SUCCEEDED` / ` FAILED` marker (lines
334-338), the send decision `send_email and not pkg_ctx['error']` (line 371),
and the unconditional `email_summary` write (lines 374-385). -/
def pkg_upgrade_handler (maintainerOverride : List (Str × Str)) (sendEmail : Bool)
    (ctx : PkgCtx) : HandlerOut :=
  let toAddr :=
    match dictLookup maintainerOverride ctx.maintainer with
    | some a => a
    | none => ctx.maintainer
  let subject :=
    str "[AUH] " ++ ctx.pn ++ str ": upgrading to " ++ ctx.npv ++
      (if ctx.error.isNone then str " SUCCEEDED" else str " FAILED")
  let sent := if sendEmail && ctx.error.isNone then some (toAddr, subject) else none
  { sentTo := sent, fileTo := toAddr, fileSubject := subject }

/-! ## Package selection: `UniverseUpdater._pkg_upgradable` (lines 784-829) -/

/-- Modelled from the spec: `str(FetchError())`, the status text recorded for
a fetch failure (`errors.py` is not part of the provided source). -/
def fetchErrorStr : Str := str "Failed(do_fetch)"

/-- Modelled from the spec: `str(Error())`, the status text recorded for an
unclassified failure (`errors.py` is not part of the provided source). -/
def errorStr : Str := str "Failed(other errors)"

/-- The selector-relevant configuration: `settings["blacklist"].split()` and
`settings["maintainers_whitelist"].split()` when present. -/
structure SelSettings where
  blacklist : Option (List Str)
  maintainersWhitelist : Option (List Str)

/-- An in-memory history record `self.history[pn] = [ver, maintainer, date,
status]`; the attempt date is held as its proleptic-Gregorian ordinal (the
value `date.toordinal(datetime.strptime(...))` computes on the stored ISO
date). -/
structure HistEntry where
  ver : Str
  maint : Str
  dateOrd : Nat
  status : Str
deriving DecidableEq

/-- Lines 789-794: the recipe-name blacklist check. -/
def blacklistedB (s : SelSettings) (pn : Str) : Bool :=
  match s.blacklist with
  | some bl => bl.any (fun p => p == pn)
  | none => false

/-- Lines 795-805: excluded when a whitelist is configured and no whitelist
entry occurs as a substring of the maintainer string. -/
def whitelistExcludesB (s : SelSettings) (maintainer : Str) : Bool :=
  match s.maintainersWhitelist with
  | some wl => !(wl.any (fun m => containsSub maintainer m))
  | none => false

/-- Lines 815-817: the retry condition for a recipe whose proposed version was
already attempted — the recorded status equals `str(FetchError())` or
`str(Error())` and more than 30 days have elapsed. -/
def transientRetryB (h : HistEntry) (todayOrd : Nat) : Bool :=
  (h.status == fetchErrorStr || h.status == errorStr) &&
    decide ((todayOrd : Int) - (h.dateOrd : Int) > 30)

/-- Lines 825-827: drop recipes whose name contains `cross` or `native`. -/
def crossNativeB (pn : Str) : Bool :=
  !(containsSub pn (str "cross") || containsSub pn (str "native"))

/-- `UniverseUpdater._pkg_upgradable(pn, next_ver, maintainer)`
(lines 784-829). -/
def pkg_upgradable (s : SelSettings) (history : List (Str × HistEntry))
    (todayOrd : Nat) (pn nextVer maintainer : Str) : Bool :=
  if maintainer.isEmpty then false
  else if blacklistedB s pn then false
  else if whitelistExcludesB s maintainer then false
  else
    match dictLookup history pn with
    | some h =>
      if nextVer == h.ver then transientRetryB h todayOrd
      else crossNativeB pn
    | none => crossNativeB pn

/-- Following the spec's words, for comparison with the code: under the spec's
history policy a matching-version candidate is eligible iff its recorded
status is transient and the elapsed time exceeds the configured cooldown
window (default 7 units). -/
def specHistoryPolicyB (cooldown : Int) (status : Str) (elapsed : Int) : Bool :=
  (status == fetchErrorStr || status == errorStr) && decide (elapsed > cooldown)

/-! ## The history ledger: `UniverseUpdater.__init__` (lines 663-672) and
`_update_history` (lines 871-881) -/

/-- Parsing of one `history.uh` line in `UniverseUpdater.__init__`:
`self.history[line.split(',')[0]] = [parts[1], parts[2], parts[3], parts[4]]`.
`none` models the `IndexError` a short line raises. -/
def parseHistLine (line : Str) : Option (Str × List Str) :=
  match splitOnChar ',' line with
  | k :: a :: b :: c :: d :: _ => some (k, [a, b, c, d])
  | _ => none

/-- Loading the ledger into the in-memory dict (lines 665-672): every line is
parsed and assigned into the insertion-ordered dict keyed by the first
field. -/
def loadHistoryLines (lines : List Str) : Option (List (Str × List Str)) :=
  lines.foldlM
    (fun d line =>
      match parseHistLine line with
      | some kv => some (dictInsert d kv.1 kv.2)
      | none => none)
    []

/-- `UniverseUpdater._update_history(pn, new_ver, maintainer, upgrade_status)`
(lines 871-881): copy every line that does NOT `startswith(pn)` into the
temporary file, append the fresh record line, atomically rename. The result is
the new list of ledger lines. -/
def updateHistoryLines (lines : List Str) (pn newVer maintainer dateS status : Str) :
    List Str :=
  (lines.filter (fun l => !(pn.isPrefixOf l))) ++
    [pn ++ ',' :: (newVer ++ ',' :: (maintainer ++ ',' :: (dateS ++ ',' :: status)))]

/-! ## Dependency ordering: `_get_pn_dep_dic`, `_dep_resolve`,
`Updater._order_pkgs_to_upgrade` (lines 442-518) -/

/-- Errors out of the ordering step: the `RuntimeError("Packages %s and %s
have a circular dependency.")` of `_dep_resolve`, the `KeyError` a `graph[node]`
lookup of a missing key raises, and fuel exhaustion (unreachable for the fuel
`orderPkgs` supplies). -/
inductive DepErr where
  | circular (a b : Str)
  | keyError (k : Str)
  | fuelOut
deriving DecidableEq

/-- `_get_pn_dep_dic(pn_list, dependency_file)` (lines 443-471), with the
dot file abstracted to its list of `"pn" -> "pn_dep"` edge lines (non-matching
lines are skipped by the regex and self-edges are dropped). -/
def getPnDepDic (pnList : List Str) (edges : List (Str × Str)) : List (Str × List Str) :=
  edges.foldl
    (fun dic pe =>
      if pe.1 == pe.2 then dic
      else if memB pe.1 pnList then
        if memB pe.2 pnList then
          match dictLookup dic pe.1 with
          | some l => dictUpdate dic pe.1 (l ++ [pe.2])
          | none => dic ++ [(pe.1, [pe.2])]
        else
          match dictLookup dic pe.1 with
          | some _ => dic
          | none => dic ++ [(pe.1, [])]
      else dic)
    []

/-- The edge loop of `_dep_resolve` (lines 476-482), parameterised by the
recursive resolver `dr`.  Both the `resolved` and the `seen` lists are shared,
mutated-in-place Python lists, so the updated pair is threaded through. -/
def goEdges (dr : Str → List Str → List Str → Except DepErr (List Str × List Str))
    (node : Str) : List Str → List Str → List Str → Except DepErr (List Str × List Str)
  | [], resolved, seen => .ok (resolved, seen)
  | e :: es, resolved, seen =>
    if memB e resolved then goEdges dr node es resolved seen
    else if memB e seen then .error (.circular node e)
    else
      match dr e resolved seen with
      | .error err => .error err
      | .ok rs => goEdges dr node es rs.1 rs.2

/-- `_dep_resolve(graph, node, resolved, seen)` (lines 473-484): append `node`
to `seen`, walk `graph[node]`, then append `node` to `resolved` (post-order).
The fuel argument bounds the recursion depth, which never exceeds the number
of keys of the graph plus one. -/
def depResolveF (g : List (Str × List Str)) : Nat →
    Str → List Str → List Str → Except DepErr (List Str × List Str)
  | 0 => fun _ _ _ => .error .fuelOut
  | fuel + 1 => fun node resolved seen =>
    match dictLookup g node with
    | none => .error (.keyError node)
    | some edges =>
      match goEdges (depResolveF g fuel) node edges resolved (seen ++ [node]) with
      | .error e => .error e
      | .ok rs => .ok (rs.1 ++ [node], rs.2)

/-- The synthetic root node `_order_pkgs_to_upgrade` seeds the traversal
with. -/
def rootName : Str := str "__root_node__"

/-- Python `list.remove(x)`: delete the first occurrence. -/
def removeFirst (l : List Str) (x : Str) : List Str :=
  match l with
  | [] => []
  | y :: ys => if y == x then ys else y :: removeFirst ys x

/-- `Updater._order_pkgs_to_upgrade(pkgs_to_upgrade)` (lines 503-518).

If the dependency dict is empty (`if pn_dep_dic:` false) no resolution runs
and the ordered name list stays empty.  Otherwise the line
`pn_dep_dic[root] = pn_dep_dic.keys()` stores a live Python 3 `dict_keys`
view: once `root` is inserted the view (iterated later by `_dep_resolve`)
contains `root` itself, which is modelled by computing the key list after the
insertion.  Finally the surviving recipes are emitted grouped by the resolved
name order. -/
def orderPkgs (pkgs : List (Str × Str × Str)) (edges : List (Str × Str)) :
    Except DepErr (List (Str × Str × Str)) :=
  let pnList := pkgs.map (fun p => p.1)
  let dic := getPnDepDic pnList edges
  if dic.isEmpty then .ok []
  else
    let dic' := dictInsert dic rootName []
    let ks := dic'.map (fun p => p.1)
    let graph := dictUpdate dic' rootName ks
    match depResolveF graph (graph.length + 1) rootName [] [] with
    | .error e => .error e
    | .ok rs =>
      let ordered := removeFirst rs.1 rootName
      .ok (ordered.foldl (fun acc pnO => acc ++ pkgs.filter (fun p => p.1 == pnO)) [])

/-! ## Concrete fixtures used by counterexamples and witnesses -/

/-- A version-control collaborator whose commit and patch creation succeed. -/
def gitOk : GitOps :=
  { commitResult := .ok (), createPatchResult := .ok (str "0001-upgrade.patch") }

/-- A version-control collaborator on a working tree with no pending changes:
the commit is rejected with a diagnostic whose first line starts with
`nothing to commit`. -/
def gitNothingToCommit : GitOps :=
  { commitResult := .error ⟨str "commit failed", str "nothing to commit, working tree clean"⟩,
    createPatchResult := .ok [] }

/-- A context that reached commit finalization with a recipe handle present
(all pipeline steps succeeded). -/
def ctxWithRecipe : PkgCtx :=
  { pn := str "nano", npv := str "8.0", maintainer := str "m",
    recipe := some ⟨str "upgrade nano", none⟩, patchFile := none, error := none }

/-- A step that terminates benignly: the target version is already current. -/
def benignStep : Step := fun c => (c, some (.upgradeNotNeeded (str "Version 8.0 is up to date")))

/-- A step that raises an execution failure (a structured `Error`). -/
def failStep : Step := fun c => (c, some (.err ⟨str "do_compile failed", str "compile log"⟩))

/-- A one-record in-memory history: `nano` was already attempted at version
`8.0` on ordinal day 1000 and failed with a fetch error. -/
def histNano : List (Str × HistEntry) :=
  [(str "nano", ⟨str "8.0", str "m", 1000, fetchErrorStr⟩)]

/-- A one-line ledger holding a record for `foo-bar`. -/
def c4Ledger : List Str := [str "foo-bar,1.0,m,2026-01-01,Succeeded"]

/-- Three eligible recipes forming the acyclic chain c depends on b depends on
a (the extra edge `a -> w` leaves the in-set graph unchanged since `w` is not
in the set, but gives `a` its adjacency entry as a real dot file would). -/
def c6Pkgs : List (Str × Str × Str) :=
  [(str "a", str "2.0", str "ma"), (str "b", str "2.0", str "mb"), (str "c", str "2.0", str "mc")]

/-- The dependency edge lines for the chain of `c6Pkgs`. -/
def c6Edges : List (Str × Str) := [(str "b", str "a"), (str "c", str "b"), (str "a", str "w")]

/-- A finalized context of a failed recipe. -/
def failedCtx : PkgCtx :=
  { pn := str "nano", npv := str "8.0", maintainer := str "m",
    recipe := none, patchFile := none, error := some (.err ⟨str "do_compile failed", []⟩) }

/-! ## Helper lemmas -/

theorem memB_eq_true_iff (x : Str) (l : List Str) : memB x l = true ↔ x ∈ l := by
  simp [memB]

theorem memB_eq_false_iff (x : Str) (l : List Str) : memB x l = false ↔ x ∉ l := by
  rw [← Bool.not_eq_true, not_iff_not]
  exact memB_eq_true_iff x l

theorem runStepsLoop_append (l1 l2 : List Step) (c : PkgCtx) :
    runStepsLoop (l1 ++ l2) c =
      match runStepsLoop l1 c with
      | (c', none) => runStepsLoop l2 c'
      | (c', some e) => (c', some e) := by
  induction l1 generalizing c with
  | nil => rfl
  | cons s rest ih =>
    show runStepsLoop (s :: (rest ++ l2)) c = _
    simp only [runStepsLoop]
    cases hs : s c with
    | mk c' oe =>
      cases oe with
      | none => simp only [ih c']
      | some e => rfl

theorem runStepsLoop_fail_at (steps : List Step) (c ctx1 ctx2 : PkgCtx) (k : Nat)
    (sk : Step) (exc : StepExc)
    (htake : runStepsLoop (steps.take k) c = (ctx1, none))
    (hget : steps[k]? = some sk)
    (hstep : sk ctx1 = (ctx2, some exc)) :
    runStepsLoop steps c = (ctx2, some exc) ∧
      runStepsLoop (steps.take (k + 1)) c = (ctx2, some exc) := by
  have htk : steps.take (k + 1) = steps.take k ++ [sk] := by
    rw [List.take_succ, hget]
    rfl
  have h1 : runStepsLoop (steps.take (k + 1)) c = (ctx2, some exc) := by
    rw [htk, runStepsLoop_append, htake]
    simp only [runStepsLoop, hstep]
  refine ⟨?_, h1⟩
  conv_lhs => rw [← List.take_append_drop (k + 1) steps]
  rw [runStepsLoop_append, h1]

theorem runAllLoop_append (steps : List Step) (git : GitOps) (l1 l2 : List PkgCtx) :
    runAllLoop steps git (l1 ++ l2) = runAllLoop steps git l1 ++ runAllLoop steps git l2 := by
  induction l1 with
  | nil => rfl
  | cons c cs ih => simp [runAllLoop, ih]

theorem runAllLoop_eq_map (steps : List Step) (git : GitOps) (l : List PkgCtx) :
    runAllLoop steps git l = l.map (processPkg steps git) := by
  induction l with
  | nil => rfl
  | cons c cs ih => simp [runAllLoop, ih]

/-! ## Claim C1 -/

/-- Claim C1 counterexample: on a working tree with no pending changes
(`nothing to commit` rejection) and with all pipeline steps succeeded, commit
finalization does NOT complete without raising: the recipe's error is set to
`Error("Nothing to commit!", ...)` and the recipe does not stay in the
succeeded set (the outcome flag is `false`). -/
theorem c1_nothing_to_commit_counterexample :
    (processPkg [] gitNothingToCommit ctxWithRecipe).2 = false ∧
    (processPkg [] gitNothingToCommit ctxWithRecipe).1.error =
      some (.err ⟨str "Nothing to commit!", str "nothing to commit, working tree clean"⟩) :=
  ⟨rfl, rfl⟩

/-- Claim C1, amended: when commit finalization runs on a context holding a
recipe handle and the version-control commit is rejected with a diagnostic
containing a line starting with `nothing to commit`, `commit_changes` treats
this as an error: it sets the context's error to
`Error("Nothing to commit!", stdout)` and raises it (the patch artifact stays
`None`), and a recipe whose pipeline steps all succeeded is therefore removed
from the succeeded set and marked failed. -/
theorem c1_nothing_to_commit_amended (steps : List Step) (git : GitOps)
    (p ctx1 : PkgCtx) (r : Recipe) (e : UHError)
    (hsteps : runStepsLoop steps { p with error := none } = (ctx1, none))
    (hrec : ctx1.recipe = some r)
    (hcommit : git.commitResult = .error e)
    (hntc : (splitOnChar '\n' e.stdout).any
      (fun l => (str "nothing to commit").isPrefixOf l) = true) :
    commit_changes git ctx1 =
      ({ ctx1 with
           patchFile := none,
           error := some (.err ⟨str "Nothing to commit!", e.stdout⟩) },
        some ⟨str "Nothing to commit!", e.stdout⟩) ∧
    processPkg steps git p =
      ({ ctx1 with
           patchFile := none,
           error := some (.err ⟨str "Nothing to commit!", e.stdout⟩) }, false) := by
  have hcc : commit_changes git ctx1 =
      ({ ctx1 with
           patchFile := none,
           error := some (.err ⟨str "Nothing to commit!", e.stdout⟩) },
        some ⟨str "Nothing to commit!", e.stdout⟩) := by
    simp only [commit_changes, hcommit]
    have hrec' : ({ ctx1 with patchFile := none } : PkgCtx).recipe = some r := hrec
    rw [hrec']
    simp only [commitErrHandler, hntc, if_true]
  refine ⟨hcc, ?_⟩
  simp only [processPkg, hsteps, hcc]

/-- Witness for C1 amended, at the concrete `nothing to commit` scenario. -/
theorem c1_nothing_to_commit_witness :
    runStepsLoop [] { ctxWithRecipe with error := none } = (ctxWithRecipe, none) ∧
    processPkg [] gitNothingToCommit ctxWithRecipe =
      ({ ctxWithRecipe with
           patchFile := none,
           error := some (.err ⟨str "Nothing to commit!",
             str "nothing to commit, working tree clean"⟩) }, false) :=
  ⟨rfl,
    (c1_nothing_to_commit_amended [] gitNothingToCommit ctxWithRecipe ctxWithRecipe
      ⟨str "upgrade nano", none⟩
      ⟨str "commit failed", str "nothing to commit, working tree clean"⟩
      rfl rfl rfl rfl).2⟩

/-! ## Claim C2 -/

/-- Claim C2 counterexample: a recipe whose pipeline terminates benignly
(target version already current) does NOT leave `ctx.error` unset and is
recorded as a failure: the error field holds the benign exception and the
outcome flag is `false` (the recipe is appended to the failed list, not the
succeeded one). -/
theorem c2_benign_counterexample :
    (processPkg [benignStep] gitOk (mkCtx (str "nano", str "8.0", str "m"))).2 = false ∧
    (processPkg [benignStep] gitOk (mkCtx (str "nano", str "8.0", str "m"))).1.error =
      some (.upgradeNotNeeded (str "Version 8.0 is up to date")) :=
  ⟨rfl, rfl⟩

/-- Claim C2, amended: a benign termination (`UpgradeNotNeededError` or
`UnsupportedProtocolError`) raised at step `k` is only logged at info level,
but `run`'s handler still sets `ctx.error` to the benign exception and appends
the recipe to the failed list (outcome flag `false`); its recorded status text
is therefore not `Succeeded`. -/
theorem c2_benign_amended (steps : List Step) (git : GitOps)
    (p ctx1 ctx2 : PkgCtx) (k : Nat) (sk : Step) (exc : StepExc) (m : Str)
    (htake : runStepsLoop (steps.take k) { p with error := none } = (ctx1, none))
    (hget : steps[k]? = some sk)
    (hstep : sk ctx1 = (ctx2, some exc))
    (hbenign : exc = .upgradeNotNeeded m ∨ exc = .unsupportedProtocol m)
    (hrec : ctx2.recipe = none) :
    processPkg steps git p =
      ({ ctx2 with
           error := some exc,
           patchFile := none }, false) ∧
    getStatusMsg (some exc) ≠ str "Succeeded" := by
  obtain ⟨hrun, -⟩ :=
    runStepsLoop_fail_at steps { p with error := none } ctx1 ctx2 k sk exc htake hget hstep
  have hclass : classifyExc exc = exc := by
    rcases hbenign with h | h <;> rw [h] <;> rfl
  have hcc : commit_changes git { ctx2 with error := some exc } =
      ({ ctx2 with error := some exc, patchFile := none }, none) := by
    simp only [commit_changes, hrec]
  constructor
  · simp only [processPkg, hrun, hclass, hcc]
  · rcases hbenign with h | h <;> rw [h] <;>
      simp only [getStatusMsg, strOfExc] <;> decide

/-- Witness for C2 amended, at a concrete benign (already-current)
termination. -/
theorem c2_benign_witness :
    benignStep (mkCtx (str "nano", str "8.0", str "m")) =
      (mkCtx (str "nano", str "8.0", str "m"),
        some (.upgradeNotNeeded (str "Version 8.0 is up to date"))) ∧
    processPkg [benignStep] gitOk (mkCtx (str "nano", str "8.0", str "m")) =
      ({ mkCtx (str "nano", str "8.0", str "m") with
           error := some (.upgradeNotNeeded (str "Version 8.0 is up to date")),
           patchFile := none }, false) :=
  ⟨rfl,
    (c2_benign_amended [benignStep] gitOk (mkCtx (str "nano", str "8.0", str "m"))
      (mkCtx (str "nano", str "8.0", str "m")) (mkCtx (str "nano", str "8.0", str "m"))
      0 benignStep (.upgradeNotNeeded (str "Version 8.0 is up to date"))
      (str "Version 8.0 is up to date")
      rfl rfl rfl (Or.inl rfl) rfl).1⟩

/-! ## Claim C5 -/

/-- Claim C5 (confirmed): an execution failure (`Error`) raised at step `k` of
one recipe's pipeline (i) determines the step loop's result — steps
`k+1 .. n` are never executed, as the loop result equals the result over the
first `k+1` steps alone; (ii) leaves that recipe's `ctx.error` set to the
failure while the unconditional commit finalization still runs (it resets
`patch_file`), and the recipe ends in the failed set; and (iii) does not abort
the run — the recipe loop processes every recipe before and after it
unchanged. -/
theorem c5_failure_isolation (steps : List Step) (git : GitOps)
    (p ctx1 ctx2 : PkgCtx) (k : Nat) (sk : Step) (e : UHError)
    (pre post : List PkgCtx)
    (htake : runStepsLoop (steps.take k) { p with error := none } = (ctx1, none))
    (hget : steps[k]? = some sk)
    (hfail : sk ctx1 = (ctx2, some (.err e)))
    (hrec : ctx2.recipe = none) :
    runStepsLoop steps { p with error := none } = (ctx2, some (.err e)) ∧
    runStepsLoop steps { p with error := none } =
      runStepsLoop (steps.take (k + 1)) { p with error := none } ∧
    processPkg steps git p =
      ({ ctx2 with
           error := some (.err e),
           patchFile := none }, false) ∧
    runAllLoop steps git (pre ++ p :: post) =
      runAllLoop steps git pre ++ processPkg steps git p :: runAllLoop steps git post := by
  obtain ⟨hrun, hrun'⟩ :=
    runStepsLoop_fail_at steps { p with error := none } ctx1 ctx2 k sk (.err e)
      htake hget hfail
  have hcc : commit_changes git { ctx2 with error := some (.err e) } =
      ({ ctx2 with error := some (.err e), patchFile := none }, none) := by
    simp only [commit_changes, hrec]
  refine ⟨hrun, hrun.trans hrun'.symm, ?_, ?_⟩
  · simp only [processPkg, hrun, classifyExc, hcc]
  · rw [runAllLoop_append]
    rfl

/-- Witness for C5, at a concrete single-step pipeline whose step raises a
compile failure. -/
theorem c5_failure_isolation_witness :
    ([failStep] : List Step)[0]? = some failStep ∧
    processPkg [failStep] gitOk (mkCtx (str "nano", str "8.0", str "m")) =
      ({ mkCtx (str "nano", str "8.0", str "m") with
           error := some (.err ⟨str "do_compile failed", str "compile log"⟩),
           patchFile := none }, false) :=
  ⟨rfl,
    (c5_failure_isolation [failStep] gitOk (mkCtx (str "nano", str "8.0", str "m"))
      (mkCtx (str "nano", str "8.0", str "m")) (mkCtx (str "nano", str "8.0", str "m"))
      0 failStep ⟨str "do_compile failed", str "compile log"⟩ [] []
      rfl rfl rfl rfl).2.2.1⟩

/-! ## Claim C3 -/

/-- Claim C3 counterexample: `nano` has a history record for the proposed
version `8.0` with a transient (fetch-error) status, and 10 days have elapsed
since the attempt.  Under the claim's configured cooldown (default 7 units)
it should be included, but the selector excludes it: the threshold in the code
is the hard-coded constant 30. -/
theorem c3_cooldown_counterexample :
    pkg_upgradable ⟨none, none⟩ histNano 1010 (str "nano") (str "8.0") (str "m") = false ∧
    specHistoryPolicyB 7 fetchErrorStr ((1010 : Int) - (1000 : Int)) = true :=
  ⟨rfl, rfl⟩

/-- Claim C3, amended: for a candidate passing the maintainer, blacklist and
whitelist rules whose recipe has a history record with `last_target_version`
equal to the proposed version, the selector includes it if and only if the
recorded status denotes a transient failure (fetch error or unclassified
error) AND more than 30 days have elapsed since `last_attempt_date` — a fixed
threshold, with no configurable cooldown window and no 7-unit default. -/
theorem c3_cooldown_amended (s : SelSettings) (history : List (Str × HistEntry))
    (todayOrd : Nat) (pn nextVer maintainer : Str) (h : HistEntry)
    (hm : maintainer.isEmpty = false)
    (hbl : blacklistedB s pn = false)
    (hwl : whitelistExcludesB s maintainer = false)
    (hh : dictLookup history pn = some h)
    (hv : (nextVer == h.ver) = true) :
    pkg_upgradable s history todayOrd pn nextVer maintainer = transientRetryB h todayOrd := by
  simp only [pkg_upgradable, hm, hbl, hwl, hh, hv, Bool.false_eq_true, if_false, if_true]

/-- Witness for C3 amended, at the concrete `nano` record 40 days after a
fetch failure (the selector then includes it, matching `transientRetryB`). -/
theorem c3_cooldown_witness :
    dictLookup histNano (str "nano") = some ⟨str "8.0", str "m", 1000, fetchErrorStr⟩ ∧
    pkg_upgradable ⟨none, none⟩ histNano 1040 (str "nano") (str "8.0") (str "m") =
      transientRetryB ⟨str "8.0", str "m", 1000, fetchErrorStr⟩ 1040 :=
  ⟨rfl,
    c3_cooldown_amended ⟨none, none⟩ histNano 1040 (str "nano") (str "8.0") (str "m")
      ⟨str "8.0", str "m", 1000, fetchErrorStr⟩ rfl rfl rfl rfl rfl⟩

/-! ## Claim C4 -/

/-- Claim C4 (code bug): `_update_history` filters the previous ledger lines
with `line.startswith(pn)`, so updating recipe `foo` also deletes the record
of every recipe whose name has `foo` as a prefix.  Evaluated at the failing
input: a ledger holding only `foo-bar`'s record, after `update("foo", ...)`
followed by `load()`, contains exactly one record — for `foo` — and the
previously present record for `foo-bar` is gone, contradicting the claim that
records of all other recipe names are retained. -/
theorem c4_history_prefix_bug :
    loadHistoryLines c4Ledger =
      some [(str "foo-bar", [str "1.0", str "m", str "2026-01-01", str "Succeeded"])] ∧
    loadHistoryLines (updateHistoryLines c4Ledger (str "foo") (str "2.0") (str "m")
        (str "2026-10-12") (str "Succeeded")) =
      some [(str "foo", [str "2.0", str "m", str "2026-10-12", str "Succeeded"])] ∧
    dictLookup [(str "foo", [str "2.0", str "m", str "2026-10-12", str "Succeeded"])]
        (str "foo-bar") = none :=
  ⟨rfl, rfl, rfl⟩

/-! ## Claim C10 -/

/-- Claim C10 (confirmed): a per-recipe email is handed to the notification
collaborator iff sending is enabled AND the recipe's error is unset; for a
failed recipe no send happens even with sending enabled, while the composed
message written to the `email_summary` artifact carries the ` FAILED` subject
marker. -/
theorem c10_email_gating (mo : List (Str × Str)) (sendEmail : Bool) (ctx : PkgCtx) :
    ((pkg_upgrade_handler mo sendEmail ctx).sentTo ≠ none ↔
      sendEmail = true ∧ ctx.error = none) ∧
    (ctx.error ≠ none →
      (pkg_upgrade_handler mo sendEmail ctx).sentTo = none ∧
      (pkg_upgrade_handler mo sendEmail ctx).fileSubject =
        str "[AUH] " ++ ctx.pn ++ str ": upgrading to " ++ ctx.npv ++ str " FAILED") := by
  cases he : ctx.error with
  | none => cases sendEmail <;> simp [pkg_upgrade_handler, he]
  | some e => cases sendEmail <;> simp [pkg_upgrade_handler, he]

/-- Witness for C10, at a concrete failed recipe with sending enabled. -/
theorem c10_email_gating_witness :
    failedCtx.error ≠ none ∧
    ((pkg_upgrade_handler [] true failedCtx).sentTo = none ∧
      (pkg_upgrade_handler [] true failedCtx).fileSubject =
        str "[AUH] " ++ failedCtx.pn ++ str ": upgrading to " ++ failedCtx.npv ++
          str " FAILED") :=
  ⟨by simp [failedCtx], (c10_email_gating [] true failedCtx).2 (by simp [failedCtx])⟩

/-! ## Claim C7 -/

/-- Claim C7 counterexample: with selection order `[b, a]` and a recorded
dependency of `b` on `a`, the pipeline processes `b` first — the raw selection
order — even though a dependency-respecting order would put `a` first; indeed
the dependency orderer is never consulted (and on this very input it would not
even produce an order, failing with the synthetic-root circularity). -/
theorem c7_order_counterexample :
    (updaterRun [] gitOk [(str "b", str "2.0", str "mb"), (str "a", str "2.0", str "ma")]).map
        (fun r => r.1.pn) = [str "b", str "a"] ∧
    orderPkgs [(str "b", str "2.0", str "mb"), (str "a", str "2.0", str "ma")]
        [(str "b", str "a"), (str "a", str "w")] = .error (.circular rootName rootName) :=
  ⟨rfl, rfl⟩

/-- Claim C7, amended: `Updater.run` does not pass the selected recipes
through the dependency orderer (the `_order_pkgs_to_upgrade` invocation is
commented out in the source); the per-recipe pipeline processes the recipes
one by one exactly in raw selection order. -/
theorem c7_order_amended (steps : List Step) (git : GitOps)
    (pkgs : List (Str × Str × Str)) :
    updaterRun steps git pkgs = pkgs.map (fun p => processPkg steps git (mkCtx p)) := by
  rw [updaterRun, runAllLoop_eq_map, List.map_map]
  rfl

/-! ## Claim C8 -/

/-- Claim C8 counterexample: the single eligible recipe `x` has no recorded
dependency edges, yet the orderer's output is the empty list — `x` is dropped,
not retained in its input position. -/
theorem c8_drop_counterexample :
    orderPkgs [(str "x", str "2.0", str "mx")] [] = .ok [] ∧
    (str "x", str "2.0", str "mx") ∉ ([] : List (Str × Str × Str)) :=
  ⟨rfl, by simp⟩

/-- Claim C8, amended: recipes with no recorded dependency edges are dropped
from the orderer's output rather than appended after the constrained ones; in
particular, whenever no eligible recipe appears as the source of any recorded
dependency edge (so the adjacency dict stays empty), the orderer returns the
empty list and every eligible recipe is dropped. -/
theorem c8_drop_amended (pkgs : List (Str × Str × Str)) (edges : List (Str × Str))
    (h : getPnDepDic (pkgs.map (fun p => p.1)) edges = []) :
    orderPkgs pkgs edges = .ok [] := by
  simp only [orderPkgs, h]
  rfl

/-- Witness for C8 amended, at the concrete one-recipe, no-edge input. -/
theorem c8_drop_witness :
    getPnDepDic ([(str "x", str "2.0", str "mx")].map (fun p => p.1)) [] = [] ∧
    orderPkgs [(str "x", str "2.0", str "mx")] [] = .ok [] :=
  ⟨rfl, c8_drop_amended [(str "x", str "2.0", str "mx")] [] rfl⟩

/-! ## Claim C6 -/

/-- Claim C6 (code bug): on the acyclic chain `c` depends on `b` depends on
`a`, the dependency orderer does not return the order `[a, b, c]` (nor any
order): because `pn_dep_dic[root] = pn_dep_dic.keys()` stores a live Python 3
`dict_keys` view, the synthetic root's edge list contains the root itself,
`_dep_resolve` finds the root in its own `seen` list, and the function raises
`RuntimeError("Packages __root_node__ and __root_node__ have a circular
dependency.")` on this cycle-free input. -/
theorem c6_orderer_root_cycle_bug :
    orderPkgs c6Pkgs c6Edges = .error (.circular rootName rootName) :=
  rfl

/-! ## Dictionary and resolver lemmas for claim C9 -/

theorem dictLookup_update_self {α : Type} (d : List (Str × α)) (k : Str) (v : α)
    (h : d.any (fun p => p.1 == k) = true) :
    dictLookup (dictUpdate d k v) k = some v := by
  induction d with
  | nil => simp at h
  | cons p d ih =>
    simp only [dictUpdate, List.map_cons]
    by_cases hp : (p.1 == k) = true
    · rw [if_pos hp]
      simp [dictLookup, List.find?]
    · rw [if_neg hp]
      have h' : d.any (fun p => p.1 == k) = true := by
        simp only [List.any_cons, Bool.or_eq_true] at h
        rcases h with h | h
        · exact absurd h hp
        · exact h
      have := ih h'
      simp only [dictLookup, dictUpdate] at this ⊢
      rw [List.find?_cons_of_neg]
      · exact this
      · exact hp

theorem any_key_dictInsert {α : Type} (d : List (Str × α)) (k : Str) (v : α) :
    (dictInsert d k v).any (fun p => p.1 == k) = true := by
  unfold dictInsert
  by_cases h : d.any (fun p => p.1 == k) = true
  · rw [if_pos h]
    rw [List.any_eq_true] at h ⊢
    obtain ⟨p, hp, he⟩ := h
    refine ⟨(k, v), ?_, by simp⟩
    exact List.mem_map.mpr ⟨p, hp, by rw [if_pos he]⟩
  · rw [if_neg h]
    simp [List.any_append]

theorem key_mem_map_of_any {α : Type} (d : List (Str × α)) (k : Str)
    (h : d.any (fun p => p.1 == k) = true) : k ∈ d.map (fun p => p.1) := by
  rw [List.any_eq_true] at h
  obtain ⟨p, hp, he⟩ := h
  rw [beq_iff_eq] at he
  exact he ▸ List.mem_map_of_mem _ hp

/-- Invariant of the edge loop: on success, the resolved list only grows, all
newly resolved names were outside the `seen` list at entry, and the `seen`
list only grows. -/
theorem goEdges_inv
    (dr : Str → List Str → List Str → Except DepErr (List Str × List Str))
    (hdr : ∀ e r s r' s', e ∉ s → dr e r s = .ok (r', s') →
      ((∃ t, r' = r ++ t ∧ ∀ x ∈ t, x ∉ s) ∧ ∃ u, s' = s ++ u))
    (node : Str) (es : List Str) :
    ∀ (resolved seen res' seen' : List Str),
      goEdges dr node es resolved seen = .ok (res', seen') →
      ((∃ t, res' = resolved ++ t ∧ ∀ x ∈ t, x ∉ seen) ∧ ∃ u, seen' = seen ++ u) := by
  induction es with
  | nil =>
    intro resolved seen res' seen' h
    simp only [goEdges, Except.ok.injEq, Prod.mk.injEq] at h
    obtain ⟨h1, h2⟩ := h
    subst h1; subst h2
    exact ⟨⟨[], by simp, by simp⟩, [], by simp⟩
  | cons e es ih =>
    intro resolved seen res' seen' h
    simp only [goEdges] at h
    by_cases h1 : memB e resolved = true
    · rw [if_pos h1] at h
      exact ih resolved seen res' seen' h
    · rw [if_neg h1] at h
      by_cases h2 : memB e seen = true
      · rw [if_pos h2] at h
        exact absurd h (by simp)
      · rw [if_neg h2] at h
        cases hre : dr e resolved seen with
        | error err => rw [hre] at h; exact absurd h (by simp)
        | ok rs =>
          rw [hre] at h
          have hne : e ∉ seen := by
            intro hc
            exact h2 ((memB_eq_true_iff e seen).mpr hc)
          obtain ⟨⟨t1, ht1, ht1n⟩, u1, hu1⟩ := hdr e resolved seen rs.1 rs.2 hne hre
          obtain ⟨⟨t2, ht2, ht2n⟩, u2, hu2⟩ := ih rs.1 rs.2 res' seen' h
          refine ⟨⟨t1 ++ t2, ?_, ?_⟩, ⟨u1 ++ u2, ?_⟩⟩
          · rw [ht2, ht1, List.append_assoc]
          · intro x hx
            rcases List.mem_append.mp hx with hx | hx
            · exact ht1n x hx
            · intro hxs
              refine ht2n x hx ?_
              rw [hu1]
              exact List.mem_append_left u1 hxs
          · rw [hu2, hu1, List.append_assoc]

/-- Invariant of `_dep_resolve`: on success (entered with a node not yet in
`seen`), the resolved list only grows, all newly resolved names were outside
the `seen` list at entry, and the `seen` list only grows. -/
theorem depResolveF_inv (g : List (Str × List Str)) :
    ∀ (fuel : Nat) (node : Str) (resolved seen res' seen' : List Str),
      node ∉ seen →
      depResolveF g fuel node resolved seen = .ok (res', seen') →
      ((∃ t, res' = resolved ++ t ∧ ∀ x ∈ t, x ∉ seen) ∧ ∃ u, seen' = seen ++ u) := by
  intro fuel
  induction fuel with
  | zero =>
    intro node resolved seen res' seen' hn h
    exact absurd h (by simp [depResolveF])
  | succ fuel ih =>
    intro node resolved seen res' seen' hn h
    simp only [depResolveF] at h
    cases hl : dictLookup g node with
    | none =>
      simp only [hl] at h
      exact absurd h (by simp)
    | some edges =>
      simp only [hl] at h
      cases hg : goEdges (depResolveF g fuel) node edges resolved (seen ++ [node]) with
      | error e =>
        simp only [hg] at h
        exact absurd h (by simp)
      | ok rs =>
        simp only [hg, Except.ok.injEq, Prod.mk.injEq] at h
        obtain ⟨h1, h2⟩ := h
        obtain ⟨⟨t, ht, htn⟩, u, hu⟩ :=
          goEdges_inv (depResolveF g fuel) (fun e r s r' s' => ih e r s r' s')
            node edges resolved (seen ++ [node]) rs.1 rs.2 hg
        refine ⟨⟨t ++ [node], ?_, ?_⟩, ⟨[node] ++ u, ?_⟩⟩
        · rw [← h1, ht, List.append_assoc]
        · intro x hx
          rcases List.mem_append.mp hx with hx | hx
          · intro hxs
            exact htn x hx (List.mem_append_left [node] hxs)
          · rw [List.mem_singleton] at hx
            subst hx
            exact hn
        · rw [← h2, hu, List.append_assoc]

/-- If some name `x` occurs in the pending edge list while it is already in
`seen` but not yet resolved, the edge loop can never return successfully: when
`x`'s turn comes the circular-dependency error fires (or an earlier edge
already failed). -/
theorem goEdges_no_ok
    (dr : Str → List Str → List Str → Except DepErr (List Str × List Str))
    (hdr : ∀ e r s r' s', e ∉ s → dr e r s = .ok (r', s') →
      ((∃ t, r' = r ++ t ∧ ∀ x ∈ t, x ∉ s) ∧ ∃ u, s' = s ++ u))
    (x : Str) (es : List Str) :
    ∀ (node : Str) (resolved seen : List Str) (out : List Str × List Str),
      x ∈ es → x ∈ seen → x ∉ resolved →
      goEdges dr node es resolved seen ≠ .ok out := by
  induction es with
  | nil =>
    intro node resolved seen out hx
    exact absurd hx (List.not_mem_nil x)
  | cons e es ih =>
    intro node resolved seen out hx hseen hres h
    simp only [goEdges] at h
    by_cases h1 : memB e resolved = true
    · rw [if_pos h1] at h
      have hxe : x ≠ e := by
        intro he; subst he
        exact hres ((memB_eq_true_iff x resolved).mp h1)
      have hx' : x ∈ es := by
        rcases List.mem_cons.mp hx with h' | h'
        · exact absurd h' hxe
        · exact h'
      exact ih node resolved seen out hx' hseen hres h
    · rw [if_neg h1] at h
      by_cases h2 : memB e seen = true
      · rw [if_pos h2] at h
        exact absurd h (by simp)
      · rw [if_neg h2] at h
        have hxe : x ≠ e := by
          intro he; subst he
          exact h2 ((memB_eq_true_iff x seen).mpr hseen)
        have hx' : x ∈ es := by
          rcases List.mem_cons.mp hx with h' | h'
          · exact absurd h' hxe
          · exact h'
        cases hre : dr e resolved seen with
        | error err => rw [hre] at h; exact absurd h (by simp)
        | ok rs =>
          rw [hre] at h
          have hne : e ∉ seen := by
            intro hc
            exact h2 ((memB_eq_true_iff e seen).mpr hc)
          obtain ⟨⟨t, ht, htn⟩, u, hu⟩ := hdr e resolved seen rs.1 rs.2 hne hre
          have hres' : x ∉ rs.1 := by
            rw [ht]
            intro hc
            rcases List.mem_append.mp hc with hc | hc
            · exact hres hc
            · exact htn x hc hseen
          have hseen' : x ∈ rs.2 := by
            rw [hu]
            exact List.mem_append_left u hseen
          exact ih node rs.1 rs.2 out hx' hseen' hres' h

/-! ## Claim C9 -/

/-- Claim C9 (confirmed): on the two-cycle `a` depends on `b` depends on `a`,
the dependency orderer fails with the circular-dependency error naming both
recipes forming the back-edge (`b` and `a`, in the traversal's order) rather
than returning an order; and in general, whenever the adjacency dict is
non-empty (as it is for every graph containing an in-set cycle, since every
cycle member occurs as an edge source) the orderer never returns an order. -/
theorem c9_cycle_detection :
    (orderPkgs [(str "a", str "2.0", str "ma"), (str "b", str "2.0", str "mb")]
        [(str "a", str "b"), (str "b", str "a")] =
      .error (.circular (str "b") (str "a"))) ∧
    (∀ (pkgs : List (Str × Str × Str)) (edges : List (Str × Str))
        (out : List (Str × Str × Str)),
        getPnDepDic (pkgs.map (fun p => p.1)) edges ≠ [] →
        orderPkgs pkgs edges ≠ .ok out) := by
  have key : ∀ (d1 : List (Str × List Str)) (fuel : Nat) (rs : List Str × List Str),
      d1.any (fun p => p.1 == rootName) = true →
      depResolveF (dictUpdate d1 rootName (d1.map (fun p => p.1))) (fuel + 1)
        rootName [] [] ≠ .ok rs := by
    intro d1 fuel rs hany h
    simp only [depResolveF, List.nil_append] at h
    have hlk : dictLookup (dictUpdate d1 rootName (d1.map (fun p => p.1))) rootName =
        some (d1.map (fun p => p.1)) :=
      dictLookup_update_self d1 rootName _ hany
    simp only [hlk] at h
    cases hg : goEdges (depResolveF (dictUpdate d1 rootName (d1.map (fun p => p.1))) fuel)
        rootName (d1.map (fun p => p.1)) [] [rootName] with
    | error e =>
      simp only [hg] at h
      exact absurd h (by simp)
    | ok rs2 =>
      exact goEdges_no_ok (depResolveF (dictUpdate d1 rootName (d1.map (fun p => p.1))) fuel)
        (fun e r s r' s' => depResolveF_inv _ fuel e r s r' s')
        rootName (d1.map (fun p => p.1)) rootName [] [rootName] rs2
        (key_mem_map_of_any d1 rootName hany) (List.mem_singleton.mpr rfl)
        (List.not_mem_nil rootName) hg
  refine ⟨rfl, ?_⟩
  intro pkgs edges out hne hok
  have hie : (getPnDepDic (pkgs.map (fun p => p.1)) edges).isEmpty = false := by
    cases hd : getPnDepDic (pkgs.map (fun p => p.1)) edges with
    | nil => exact absurd hd hne
    | cons a l => rfl
  simp only [orderPkgs, hie, Bool.false_eq_true, if_false] at hok
  set d1 := dictInsert (getPnDepDic (pkgs.map (fun p => p.1)) edges) rootName [] with hd1
  set g := dictUpdate d1 rootName (d1.map (fun p => p.1)) with hgg
  cases hres : depResolveF g (g.length + 1) rootName [] [] with
  | error e =>
    simp only [hres] at hok
    exact absurd hok (by simp)
  | ok rs =>
    rw [hgg] at hres
    exact key d1 g.length rs (any_key_dictInsert _ rootName []) hres

/-- Witness for the general part of C9, at the concrete two-cycle input. -/
theorem c9_cycle_detection_witness :
    getPnDepDic ([(str "a", str "2.0", str "ma"), (str "b", str "2.0", str "mb")].map
        (fun p => p.1)) [(str "a", str "b"), (str "b", str "a")] ≠ [] ∧
    orderPkgs [(str "a", str "2.0", str "ma"), (str "b", str "2.0", str "mb")]
        [(str "a", str "b"), (str "b", str "a")] ≠ .ok [] :=
  ⟨by decide, c9_cycle_detection.2 _ _ [] (by decide)⟩
